import Mathlib

set_option maxHeartbeats 1000000

/-!
Verification of the page-reordering service of this repository: the routes
`router.get('/book/:bookId')` and `router.post('/reorder')` of the pages
router, over a shallow embedding of the page collection.

A stored page is a record carrying its own identifier (`_id`), the owning
book's identifier (`bookId`), an integer `pageNumber` (the position), and
an opaque content payload standing for every field the reordering logic
never touches.  The backing store is embedded as a list of such records;
`findOneAndUpdate` with filter `{ _id, bookId }` updates the first matching
record only.  The Page model itself (models/Page.js) is not among the staged
source files; its unique index on `(bookId, pageNumber)` — named by the
route's own comment "unique index is on bookId + pageNumber" and by the
spec — is modelled as a duplicate-key check on every write: a write whose
new `(bookId, pageNumber)` pair is already held by a different record fails,
and the route's try/catch turns that failure into a 500 response.
-/

structure Page where
  id : String
  bookId : String
  pageNumber : Int
  content : String
deriving Repr, DecidableEq

/-- The pair the storage layer's unique index constrains. -/
def pageKey (p : Page) : String × Int := (p.bookId, p.pageNumber)

/-- The fields of a page that identify it and its owner. -/
def idBook (p : Page) : String × String := (p.id, p.bookId)

/-- The filter `{ _id: pid, bookId: bid }` of the route's findOneAndUpdate calls. -/
def pageMatches (pid bid : String) (p : Page) : Bool :=
  p.id == pid && p.bookId == bid

/-- Modelled from the spec: the unique index on `(bookId, pageNumber)` that
models/Page.js (not among the staged files) declares, per the route comment
"unique index is on bookId + pageNumber" and spec section 6.  A write setting
a page of book `bid` to `pageNumber` `n` violates it exactly when a different
record (different `_id`) of the same book already holds `n`. -/
def dupKeyConflict (db : List Page) (pid bid : String) (n : Int) : Bool :=
  db.any fun q => q.id != pid && q.bookId == bid && q.pageNumber == n

/-- Update the first record matching `{ _id: pid, bookId: bid }`, setting its
`pageNumber` to `n`; every other record is untouched. -/
def updateFirst : List Page → String → String → Int → List Page
  | [], _, _, _ => []
  | p :: rest, pid, bid, n =>
    if pageMatches pid bid p then { p with pageNumber := n } :: rest
    else p :: updateFirst rest pid bid n

/-- `Page.findOneAndUpdate({ _id: pid, bookId: bid }, { $set: { pageNumber: n } })`:
no matching record is a silent no-op returning null; a match is updated and the
old record returned, unless the unique index rejects the write. -/
def findOneAndUpdatePN (db : List Page) (bid pid : String) (n : Int) :
    Except Unit (Option Page × List Page) :=
  match db.find? (pageMatches pid bid) with
  | none => .ok (none, db)
  | some p =>
    if dupKeyConflict db pid bid n then .error ()
    else .ok (some p, updateFirst db pid bid n)

/-- One awaited write per list entry, in list order, as each `for` loop of the
reorder route issues them; the first failing write aborts the rest (the thrown
error propagates to the route's catch).  Returns the resulting store, how many
writes found their page (the route's `updatedCount`), and whether every write
completed without a duplicate-key failure. -/
def runWrites (db : List Page) (bid : String) : List (String × Int) → List Page × Nat × Bool
  | [] => (db, 0, true)
  | (pid, n) :: rest =>
    match findOneAndUpdatePN db bid pid n with
    | .error _ => (db, 0, false)
    | .ok (r, db1) =>
      let out := runWrites db1 bid rest
      (out.1, (if r.isSome then 1 else 0) + out.2.1, out.2.2)

/-- The route's identifier format check `/^[0-9a-fA-F]{24}$/` on a 24-character
string. -/
def isHexDigit (c : Char) : Bool :=
  (('0' ≤ c && c ≤ '9') || ('a' ≤ c && c ≤ 'f') || ('A' ≤ c && c ≤ 'F'))

/-- `bookIdStr.length === 24 && /^[0-9a-fA-F]{24}$/.test(bookIdStr)`: the
well-formed MongoDB ObjectId format the repository itself checks. -/
def isValidObjectId (s : String) : Bool :=
  s.data.length == 24 && s.data.all isHexDigit

/-- A request-supplied identifier value: either a plain value or an object
carrying an `_id` field, as the route's `x && x._id ? String(x._id) : String(x)`
unwrapping distinguishes. -/
inductive IdValue
  | str (s : String)
  | withId (s : String)
deriving Repr, DecidableEq

def idToString : IdValue → String
  | .str s => s
  | .withId s => s

/-- `String(item.pageId)` when the field may be absent: JavaScript renders a
missing value as the string "undefined", which then fails the format check. -/
def optIdToString : Option IdValue → String
  | none => "undefined"
  | some v => idToString v

/-- One entry of the request's `pageOrder` array. -/
structure OrderItem where
  pageId : Option IdValue
  newPageNumber : Int
deriving Repr, DecidableEq

/-- The reorder request body `{ bookId, pageOrder }`; `none` stands for a
missing field (and, for `pageOrder`, for any non-array value). -/
structure ReorderRequest where
  bookId : Option IdValue
  pageOrder : Option (List OrderItem)
deriving Repr, DecidableEq

/-- The route's validation loop: each entry whose `pageId` fails the
24-character-hex check is skipped (logged), the rest are kept in order with
their requested `newPageNumber` untouched. -/
def validPageOrders (pageOrder : List OrderItem) : List (String × Int) :=
  pageOrder.filterMap fun item =>
    if isValidObjectId (optIdToString item.pageId) then
      some (optIdToString item.pageId, item.newPageNumber)
    else none

/-- Phase 1's write list from index `i` on: the entry at offset `j` gets the
placeholder `-(i + j + 1)`, mirroring `$set: { pageNumber: -(i + 1) }` in the
indexed loop. -/
def phase1WritesFrom : Nat → List (String × Int) → List (String × Int)
  | _, [] => []
  | i, (pid, _) :: rest => (pid, -((i : Int) + 1)) :: phase1WritesFrom (i + 1) rest

/-- The full Phase 1 write list: the i-th valid entry is quarantined at `-(i+1)`. -/
def phase1Writes (vpo : List (String × Int)) : List (String × Int) :=
  phase1WritesFrom 0 vpo

/-- Ascending order on `pageNumber`: the `.sort({ pageNumber: 1 })` of both routes. -/
def pageLE (p q : Page) : Prop := p.pageNumber ≤ q.pageNumber

instance : DecidableRel pageLE := fun p q => Int.decLe p.pageNumber q.pageNumber

instance : IsTotal Page pageLE := ⟨fun p q => Int.le_total p.pageNumber q.pageNumber⟩

instance : IsTrans Page pageLE := ⟨fun _ _ _ h1 h2 => le_trans h1 h2⟩

/-- `Page.find({ bookId }).sort({ pageNumber: 1 })`: the book's pages in
ascending `pageNumber` order. -/
def findPages (db : List Page) (bid : String) : List Page :=
  List.insertionSort pageLE (db.filter fun p => p.bookId == bid)

/-- What `POST /reorder` sends: a 400 with a message, a 500 when a write
throws, or the re-read page list `res.json(updatedPages)`. -/
inductive ReorderResponse
  | badRequest (message : String)
  | serverError
  | ok (pages : List Page)
deriving Repr, DecidableEq

/-- The two awaited phases of the reorder route, given a validated book id and
the validated entry list: Phase 1 quarantines every entry at its negative
placeholder, and only after that whole loop completes does Phase 2 assign the
final numbers; a write failure in either loop surfaces as the catch's 500,
leaving the store as the already-completed writes left it.  On success the
response is the full page set of the book re-read in ascending order. -/
def reorderPhases (db : List Page) (bid : String) (vpo : List (String × Int)) :
    ReorderResponse × List Page :=
  if (runWrites db bid (phase1Writes vpo)).2.2 then
    if (runWrites (runWrites db bid (phase1Writes vpo)).1 bid vpo).2.2 then
      (.ok (findPages (runWrites (runWrites db bid (phase1Writes vpo)).1 bid vpo).1 bid),
        (runWrites (runWrites db bid (phase1Writes vpo)).1 bid vpo).1)
    else (.serverError, (runWrites (runWrites db bid (phase1Writes vpo)).1 bid vpo).1)
  else (.serverError, (runWrites db bid (phase1Writes vpo)).1)

/-- `POST /reorder`: reject a missing `bookId`, a missing or non-array
`pageOrder`, or a `bookId` that is not 24-character hex, with a 400 and no
write; otherwise validate the entries and run the two phases. -/
def reorder (db : List Page) (req : ReorderRequest) : ReorderResponse × List Page :=
  match req.bookId, req.pageOrder with
  | some bv, some po =>
    if isValidObjectId (idToString bv) then
      reorderPhases db (idToString bv) (validPageOrders po)
    else (.badRequest "Invalid bookId format", db)
  | _, _ => (.badRequest "bookId and pageOrder array are required", db)

/-- What `GET /book/:bookId` sends: a page list with success status, or a 500
when the query throws (never reached in this embedding). -/
inductive ListPagesResponse
  | ok (pages : List Page)
  | serverError (message : String)
deriving Repr, DecidableEq

/-- `GET /book/:bookId`: a malformed book identifier returns `res.json([])` —
an empty list with success status, not an error; a well-formed one returns the
book's pages sorted ascending by `pageNumber`.  The library check
`mongoose.Types.ObjectId.isValid` is embedded as the 24-character-hex format
check, the ObjectId format the repository's own reorder route tests for. -/
def getPagesForBook (db : List Page) (bookId : String) : ListPagesResponse :=
  if isValidObjectId bookId then .ok (findPages db bookId)
  else .ok []

/-- No two stored records share an `_id`. -/
def idsNodup (db : List Page) : Prop := (db.map Page.id).Nodup

/-- The storage layer's unique-index invariant: no two records share a
`(bookId, pageNumber)` pair. -/
def keyNodup (db : List Page) : Prop := (db.map pageKey).Nodup

/-- At-rest uniqueness as the spec states it: within one parent no two pages
hold the same positive position. -/
def uniquePositive (db : List Page) : Prop :=
  ∀ p ∈ db, ∀ q ∈ db, p.bookId = q.bookId → p.pageNumber = q.pageNumber →
    0 < p.pageNumber → p.id = q.id

/-- The frame of one reorder run scoped to book `bid`: a record keeps its
identifier, owner and content, and a record of a different book is untouched
entirely. -/
def frameRel (bid : String) (p q : Page) : Prop :=
  q.id = p.id ∧ q.bookId = p.bookId ∧ q.content = p.content ∧ (p.bookId ≠ bid → q = p)

/-- The book identifier string a request resolves to (the valid-request branch
of the route computes exactly this). -/
def requestBid (req : ReorderRequest) : String :=
  idToString (req.bookId.getD (IdValue.str ""))

-- Concrete records used by witnesses and counterexamples.

def demoIdA : String := "aaaaaaaaaaaaaaaaaaaaaaaa"

def demoIdB : String := "bbbbbbbbbbbbbbbbbbbbbbbb"

def demoIdC : String := "cccccccccccccccccccccccc"

def demoIdP : String := "dddddddddddddddddddddddd"

def demoPageA : Page := { id := demoIdA, bookId := demoIdP, pageNumber := 1, content := "alpha" }

def demoPageB : Page := { id := demoIdB, bookId := demoIdP, pageNumber := 2, content := "beta" }

def demoDb : List Page := [demoPageA, demoPageB]


-- Basic facts about the write primitive.

lemma pageMatches_iff {pid bid : String} {p : Page} :
    pageMatches pid bid p = true ↔ p.id = pid ∧ p.bookId = bid := by
  simp [pageMatches]

lemma dupKeyConflict_iff {db : List Page} {pid bid : String} {n : Int} :
    dupKeyConflict db pid bid n = true ↔
      ∃ q ∈ db, q.id ≠ pid ∧ q.bookId = bid ∧ q.pageNumber = n := by
  simp [dupKeyConflict, and_assoc]

lemma frameRel_refl (bid : String) (p : Page) : frameRel bid p p :=
  ⟨rfl, rfl, rfl, fun _ => rfl⟩

lemma frameRel_trans {bid : String} {p q r : Page} (h1 : frameRel bid p q)
    (h2 : frameRel bid q r) : frameRel bid p r := by
  obtain ⟨a1, b1, c1, d1⟩ := h1
  obtain ⟨a2, b2, c2, d2⟩ := h2
  refine ⟨a2.trans a1, b2.trans b1, c2.trans c1, fun h => ?_⟩
  have hq : q = p := d1 h
  have hqb : q.bookId ≠ bid := by rw [b1]; exact h
  exact (d2 hqb).trans hq

lemma forall2_frame_refl (bid : String) (l : List Page) : List.Forall₂ (frameRel bid) l l :=
  List.forall₂_same.mpr fun p _ => frameRel_refl bid p

lemma forall2_frame_trans {bid : String} {a b c : List Page}
    (h1 : List.Forall₂ (frameRel bid) a b) (h2 : List.Forall₂ (frameRel bid) b c) :
    List.Forall₂ (frameRel bid) a c := by
  induction h1 generalizing c with
  | nil => cases h2; exact .nil
  | cons hpq _ ih =>
    cases h2 with
    | cons hqr htail => exact .cons (frameRel_trans hpq hqr) (ih htail)

lemma updateFirst_frame (db : List Page) (pid bid : String) (n : Int) :
    List.Forall₂ (frameRel bid) db (updateFirst db pid bid n) := by
  induction db with
  | nil => exact .nil
  | cons p rest ih =>
    cases hm : pageMatches pid bid p with
    | true =>
      have hb : p.bookId = bid := (pageMatches_iff.mp hm).2
      simp only [updateFirst, hm, if_true]
      exact .cons ⟨rfl, rfl, rfl, fun hc => absurd hb hc⟩ (forall2_frame_refl bid rest)
    | false =>
      simp only [updateFirst, hm, Bool.false_eq_true, if_false]
      exact .cons (frameRel_refl bid p) ih

lemma findOneAndUpdate_ok_frame {db db1 : List Page} {bid pid : String} {n : Int}
    {r : Option Page} (h : findOneAndUpdatePN db bid pid n = .ok (r, db1)) :
    List.Forall₂ (frameRel bid) db db1 := by
  unfold findOneAndUpdatePN at h
  cases hf : db.find? (pageMatches pid bid) with
  | none =>
    rw [hf] at h
    simp only [Except.ok.injEq, Prod.mk.injEq] at h
    rw [← h.2]
    exact forall2_frame_refl bid db
  | some p =>
    rw [hf] at h
    cases hc : dupKeyConflict db pid bid n with
    | true => rw [hc] at h; simp at h
    | false =>
      rw [hc] at h
      simp only [Bool.false_eq_true, if_false, Except.ok.injEq, Prod.mk.injEq] at h
      rw [← h.2]
      exact updateFirst_frame db pid bid n

lemma runWrites_cons_ok {db db1 : List Page} {bid pid : String} {n : Int} {r : Option Page}
    (h : findOneAndUpdatePN db bid pid n = .ok (r, db1)) (ws : List (String × Int)) :
    runWrites db bid ((pid, n) :: ws) =
      ((runWrites db1 bid ws).1,
        (if r.isSome then 1 else 0) + (runWrites db1 bid ws).2.1,
        (runWrites db1 bid ws).2.2) := by
  simp [runWrites, h]

lemma runWrites_cons_err {db : List Page} {bid pid : String} {n : Int}
    (h : findOneAndUpdatePN db bid pid n = .error ()) (ws : List (String × Int)) :
    runWrites db bid ((pid, n) :: ws) = (db, 0, false) := by
  simp [runWrites, h]

lemma runWrites_frame (db : List Page) (bid : String) (ws : List (String × Int)) :
    List.Forall₂ (frameRel bid) db (runWrites db bid ws).1 := by
  induction ws generalizing db with
  | nil => exact forall2_frame_refl bid db
  | cons w rest ih =>
    obtain ⟨pid, n⟩ := w
    cases h : findOneAndUpdatePN db bid pid n with
    | error e =>
      cases e
      rw [runWrites_cons_err h]
      exact forall2_frame_refl bid db
    | ok out =>
      obtain ⟨r, db1⟩ := out
      rw [runWrites_cons_ok h]
      exact forall2_frame_trans (findOneAndUpdate_ok_frame h) (ih db1)

lemma forall2_frame_map_idBook {bid : String} {a b : List Page}
    (h : List.Forall₂ (frameRel bid) a b) : b.map idBook = a.map idBook := by
  induction h with
  | nil => rfl
  | cons hpq _ ih => simp only [List.map_cons, ih, idBook, hpq.1, hpq.2.1]

lemma forall2_frame_map_id {bid : String} {a b : List Page}
    (h : List.Forall₂ (frameRel bid) a b) : b.map Page.id = a.map Page.id := by
  induction h with
  | nil => rfl
  | cons hpq _ ih => simp only [List.map_cons, ih, hpq.1]

lemma forall2_frame_exists {bid : String} {a b : List Page} {pid bk : String}
    (h : List.Forall₂ (frameRel bid) a b)
    (hex : ∃ p ∈ a, p.id = pid ∧ p.bookId = bk) : ∃ p ∈ b, p.id = pid ∧ p.bookId = bk := by
  induction h with
  | nil => exact hex
  | cons hpq htail ih =>
    obtain ⟨p, hp, hid, hbk⟩ := hex
    rcases List.mem_cons.mp hp with rfl | hp
    · exact ⟨_, List.mem_cons_self _ _, hpq.1.trans hid, hpq.2.1.trans hbk⟩
    · obtain ⟨q, hq, hq1, hq2⟩ := ih ⟨p, hp, hid, hbk⟩
      exact ⟨q, List.mem_cons_of_mem _ hq, hq1, hq2⟩

lemma idsNodup_of_forall2 {bid : String} {a b : List Page}
    (h : List.Forall₂ (frameRel bid) a b) (ha : idsNodup a) : idsNodup b := by
  unfold idsNodup at ha ⊢
  rw [forall2_frame_map_id h]
  exact ha

-- Membership through updateFirst.

lemma mem_updateFirst_of_id_ne {q : Page} {db : List Page} {pid bid : String} {n : Int}
    (hq : q ∈ db) (hne : q.id ≠ pid) : q ∈ updateFirst db pid bid n := by
  induction db with
  | nil => cases hq
  | cons p rest ih =>
    cases hm : pageMatches pid bid p with
    | true =>
      simp only [updateFirst, hm, if_true]
      rcases List.mem_cons.mp hq with rfl | hq
      · exact absurd (pageMatches_iff.mp hm).1 hne
      · exact List.mem_cons_of_mem _ hq
    | false =>
      simp only [updateFirst, hm, Bool.false_eq_true, if_false]
      rcases List.mem_cons.mp hq with rfl | hq
      · exact List.mem_cons_self _ _
      · exact List.mem_cons_of_mem _ (ih hq)

lemma mem_updateFirst_cases {q : Page} {db : List Page} {pid bid : String} {n : Int}
    (hq : q ∈ updateFirst db pid bid n) :
    q ∈ db ∨ (q.id = pid ∧ q.bookId = bid ∧ q.pageNumber = n) := by
  induction db with
  | nil => simp [updateFirst] at hq
  | cons p rest ih =>
    cases hm : pageMatches pid bid p with
    | true =>
      simp only [updateFirst, hm, if_true] at hq
      rcases List.mem_cons.mp hq with rfl | hq
      · right
        obtain ⟨h1, h2⟩ := pageMatches_iff.mp hm
        exact ⟨h1, h2, rfl⟩
      · exact Or.inl (List.mem_cons_of_mem _ hq)
    | false =>
      simp only [updateFirst, hm, Bool.false_eq_true, if_false] at hq
      rcases List.mem_cons.mp hq with rfl | hq
      · exact Or.inl (List.mem_cons_self _ _)
      · rcases ih hq with h | h
        · exact Or.inl (List.mem_cons_of_mem _ h)
        · exact Or.inr h

lemma mem_db_of_mem_updateFirst_of_id_ne {q : Page} {db : List Page} {pid bid : String}
    {n : Int} (hq : q ∈ updateFirst db pid bid n) (hne : q.id ≠ pid) : q ∈ db := by
  induction db with
  | nil => exact hq
  | cons p rest ih =>
    cases hm : pageMatches pid bid p with
    | true =>
      simp only [updateFirst, hm, if_true] at hq
      rcases List.mem_cons.mp hq with rfl | hq
      · exact absurd (pageMatches_iff.mp hm).1 hne
      · exact List.mem_cons_of_mem _ hq
    | false =>
      simp only [updateFirst, hm, Bool.false_eq_true, if_false] at hq
      rcases List.mem_cons.mp hq with rfl | hq
      · exact List.mem_cons_self _ _
      · exact List.mem_cons_of_mem _ (ih hq)

lemma updated_mem_updateFirst {db : List Page} {pid bid : String} {p : Page} {n : Int}
    (h : db.find? (pageMatches pid bid) = some p) :
    { p with pageNumber := n } ∈ updateFirst db pid bid n := by
  induction db with
  | nil => simp at h
  | cons q rest ih =>
    cases hm : pageMatches pid bid q with
    | true =>
      rw [List.find?_cons_of_pos _ hm] at h
      obtain rfl : q = p := by injection h
      simp only [updateFirst, hm, if_true]
      exact List.mem_cons_self _ _
    | false =>
      rw [List.find?_cons_of_neg _ (by simp [hm])] at h
      simp only [updateFirst, hm, Bool.false_eq_true, if_false]
      exact List.mem_cons_of_mem _ (ih h)

lemma exists_find?_eq_some {db : List Page} {pid bid : String} {p : Page}
    (hp : p ∈ db) (hm : pageMatches pid bid p = true) :
    ∃ q, db.find? (pageMatches pid bid) = some q ∧ q ∈ db ∧
      pageMatches pid bid q = true := by
  cases hf : db.find? (pageMatches pid bid) with
  | none => exact absurd hm (List.find?_eq_none.mp hf p hp)
  | some q => exact ⟨q, rfl, List.mem_of_find?_eq_some hf, List.find?_some hf⟩

-- Preservation of the unique-index invariant through checked writes.

lemma no_conflict_iff {db : List Page} {pid bid : String} {n : Int} :
    dupKeyConflict db pid bid n = false ↔
      ∀ q ∈ db, q.id ≠ pid → q.bookId = bid → q.pageNumber ≠ n := by
  rw [← Bool.not_eq_true, dupKeyConflict_iff]
  constructor
  · intro h q hq h1 h2 h3
    exact h ⟨q, hq, h1, h2, h3⟩
  · rintro h ⟨q, hq, h1, h2, h3⟩
    exact h q hq h1 h2 h3

lemma updateFirst_keyNodup (pid bid : String) (n : Int) :
    ∀ db : List Page, idsNodup db → keyNodup db → dupKeyConflict db pid bid n = false →
      keyNodup (updateFirst db pid bid n) := by
  intro db
  induction db with
  | nil => intro _ hk _; exact hk
  | cons p rest ih =>
    intro hi hk hc
    have hi0 : p.id ∉ rest.map Page.id ∧ idsNodup rest := by
      simpa [idsNodup, List.nodup_cons] using hi
    have hk0 : pageKey p ∉ rest.map pageKey ∧ keyNodup rest := by
      simpa [keyNodup, List.nodup_cons] using hk
    have hcAll := no_conflict_iff.mp hc
    have hcRest : dupKeyConflict rest pid bid n = false :=
      no_conflict_iff.mpr fun q hq => hcAll q (List.mem_cons_of_mem _ hq)
    cases hm : pageMatches pid bid p with
    | true =>
      obtain ⟨hpi, hpb⟩ := pageMatches_iff.mp hm
      simp only [updateFirst, hm, if_true]
      rw [keyNodup, List.map_cons, List.nodup_cons]
      refine ⟨?_, hk0.2⟩
      intro hmem
      obtain ⟨r, hr, hkey⟩ := List.mem_map.mp hmem
      have hrb : r.bookId = bid := by
        have := congrArg Prod.fst hkey
        simpa [pageKey, hpb] using this
      have hrn : r.pageNumber = n := by
        have := congrArg Prod.snd hkey
        simpa [pageKey] using this
      by_cases hrid : r.id = pid
      · exact hi0.1 (List.mem_map.mpr ⟨r, hr, hrid.trans hpi.symm⟩)
      · exact hcAll r (List.mem_cons_of_mem _ hr) hrid hrb hrn
    | false =>
      simp only [updateFirst, hm, Bool.false_eq_true, if_false]
      rw [keyNodup, List.map_cons, List.nodup_cons]
      refine ⟨?_, ih hi0.2 hk0.2 hcRest⟩
      intro hmem
      obtain ⟨r, hr, hkey⟩ := List.mem_map.mp hmem
      rcases mem_updateFirst_cases hr with h | ⟨h1, h2, h3⟩
      · exact hk0.1 (List.mem_map.mpr ⟨r, h, hkey⟩)
      · have hpb : p.bookId = bid := by
          have := congrArg Prod.fst hkey
          simpa [pageKey, h2] using this.symm
        have hpn : p.pageNumber = n := by
          have := congrArg Prod.snd hkey
          simpa [pageKey, h3] using this.symm
        have hpid : p.id ≠ pid := by
          intro hpd
          have hmt : pageMatches pid bid p = true := pageMatches_iff.mpr ⟨hpd, hpb⟩
          rw [hm] at hmt
          exact Bool.false_ne_true hmt
        exact hcAll p (List.mem_cons_self _ _) hpid hpb hpn

lemma findOneAndUpdate_ok_keyNodup {db db1 : List Page} {bid pid : String} {n : Int}
    {r : Option Page} (h : findOneAndUpdatePN db bid pid n = .ok (r, db1))
    (hi : idsNodup db) (hk : keyNodup db) : keyNodup db1 := by
  unfold findOneAndUpdatePN at h
  cases hf : db.find? (pageMatches pid bid) with
  | none =>
    rw [hf] at h
    simp only [Except.ok.injEq, Prod.mk.injEq] at h
    rw [← h.2]
    exact hk
  | some p =>
    rw [hf] at h
    cases hc : dupKeyConflict db pid bid n with
    | true => rw [hc] at h; simp at h
    | false =>
      rw [hc] at h
      simp only [Bool.false_eq_true, if_false, Except.ok.injEq, Prod.mk.injEq] at h
      rw [← h.2]
      exact updateFirst_keyNodup pid bid n db hi hk hc

lemma findOneAndUpdate_ok_mem_of_id_ne {db db1 : List Page} {bid pid : String} {n : Int}
    {r : Option Page} (h : findOneAndUpdatePN db bid pid n = .ok (r, db1))
    {q : Page} (hq : q ∈ db) (hne : q.id ≠ pid) : q ∈ db1 := by
  unfold findOneAndUpdatePN at h
  cases hf : db.find? (pageMatches pid bid) with
  | none =>
    rw [hf] at h
    simp only [Except.ok.injEq, Prod.mk.injEq] at h
    rw [← h.2]
    exact hq
  | some p =>
    rw [hf] at h
    cases hc : dupKeyConflict db pid bid n with
    | true => rw [hc] at h; simp at h
    | false =>
      rw [hc] at h
      simp only [Bool.false_eq_true, if_false, Except.ok.injEq, Prod.mk.injEq] at h
      rw [← h.2]
      exact mem_updateFirst_of_id_ne hq hne

lemma runWrites_keyNodup (bid : String) (ws : List (String × Int)) :
    ∀ db : List Page, idsNodup db → keyNodup db → keyNodup (runWrites db bid ws).1 := by
  induction ws with
  | nil => intro db _ hk; exact hk
  | cons w rest ih =>
    intro db hi hk
    obtain ⟨pid, n⟩ := w
    cases h : findOneAndUpdatePN db bid pid n with
    | error e =>
      cases e
      rw [runWrites_cons_err h]
      exact hk
    | ok out =>
      obtain ⟨r, db1⟩ := out
      rw [runWrites_cons_ok h]
      exact ih db1 (idsNodup_of_forall2 (findOneAndUpdate_ok_frame h) hi)
        (findOneAndUpdate_ok_keyNodup h hi hk)

lemma keyNodup_uniquePositive {db : List Page} (hk : keyNodup db) : uniquePositive db := by
  intro p hp q hq hb hn _
  have hk' : (db.map pageKey).Nodup := hk
  have hpq : p = q :=
    List.inj_on_of_nodup_map hk' hp hq (by simp [pageKey, hb, hn])
  exact congrArg Page.id hpq

-- The Phase-1 placeholder list.

lemma phase1WritesFrom_length (i : Nat) (ws : List (String × Int)) :
    (phase1WritesFrom i ws).length = ws.length := by
  induction ws generalizing i with
  | nil => rfl
  | cons w rest ih => obtain ⟨pid, m⟩ := w; simp [phase1WritesFrom, ih]

lemma phase1WritesFrom_map_fst (i : Nat) (ws : List (String × Int)) :
    (phase1WritesFrom i ws).map Prod.fst = ws.map Prod.fst := by
  induction ws generalizing i with
  | nil => rfl
  | cons w rest ih => obtain ⟨pid, m⟩ := w; simp [phase1WritesFrom, ih]

lemma phase1WritesFrom_snd_le {i : Nat} {ws : List (String × Int)} :
    ∀ w ∈ phase1WritesFrom i ws, w.2 ≤ -((i : Int) + 1) := by
  induction ws generalizing i with
  | nil => intro w hw; cases hw
  | cons v rest ih =>
    obtain ⟨pid, m⟩ := v
    intro w hw
    rcases List.mem_cons.mp hw with rfl | hw
    · exact le_refl _
    · have h := ih w hw
      push_cast at h ⊢
      omega

lemma phase1WritesFrom_pairwise (i : Nat) (ws : List (String × Int)) :
    (phase1WritesFrom i ws).Pairwise fun a b => a.2 ≠ b.2 := by
  induction ws generalizing i with
  | nil => exact List.Pairwise.nil
  | cons v rest ih =>
    obtain ⟨pid, m⟩ := v
    refine List.Pairwise.cons ?_ (ih (i + 1))
    intro w hw
    have h := phase1WritesFrom_snd_le w hw
    intro heq
    rw [← heq] at h
    push_cast at h
    omega

lemma phase1WritesFrom_get (ws : List (String × Int)) :
    ∀ (i j : Nat) (h : j < ws.length) (h2 : j < (phase1WritesFrom i ws).length),
      (phase1WritesFrom i ws).get ⟨j, h2⟩ = ((ws.get ⟨j, h⟩).1, -((i : Int) + j + 1)) := by
  induction ws with
  | nil => intro i j h _; exact absurd h (Nat.not_lt_zero j)
  | cons v rest ih =>
    obtain ⟨pid, m⟩ := v
    intro i j h h2
    cases j with
    | zero => simp [phase1WritesFrom]
    | succ j =>
      have hj : j < rest.length := by simpa using h
      have hj2 : j < (phase1WritesFrom (i + 1) rest).length := by
        rw [phase1WritesFrom_length]; exact hj
      show (phase1WritesFrom (i + 1) rest).get ⟨j, hj2⟩ = _
      rw [ih (i + 1) j hj hj2]
      have : -(((i + 1 : Nat) : Int) + j + 1) = -((i : Int) + (j + 1 : Nat) + 1) := by
        push_cast
        ring
      rw [this]
      rfl

-- Tracking membership and success through a run of writes.

lemma runWrites_ok_cons_inv {db : List Page} {bid pid : String} {n : Int}
    {ws : List (String × Int)}
    (h : (runWrites db bid ((pid, n) :: ws)).2.2 = true) :
    ∃ r db1, findOneAndUpdatePN db bid pid n = .ok (r, db1) ∧
      (runWrites db1 bid ws).2.2 = true ∧
      (runWrites db bid ((pid, n) :: ws)).1 = (runWrites db1 bid ws).1 := by
  cases hf : findOneAndUpdatePN db bid pid n with
  | error e =>
    cases e
    rw [runWrites_cons_err hf] at h
    simp at h
  | ok out =>
    obtain ⟨r, db1⟩ := out
    rw [runWrites_cons_ok hf] at h
    exact ⟨r, db1, rfl, h, by rw [runWrites_cons_ok hf]⟩

lemma runWrites_preserves_other {q : Page} {bid : String} (ws : List (String × Int)) :
    ∀ db : List Page, q ∈ db → q.id ∉ ws.map Prod.fst → q ∈ (runWrites db bid ws).1 := by
  induction ws with
  | nil => intro db hq _; exact hq
  | cons w rest ih =>
    intro db hq hni
    obtain ⟨pid, n⟩ := w
    have hqp : q.id ≠ pid := fun h => hni (by simp [h])
    have hni' : q.id ∉ rest.map Prod.fst := fun h => hni (by simp [h])
    cases hf : findOneAndUpdatePN db bid pid n with
    | error e =>
      cases e
      rw [runWrites_cons_err hf]
      exact hq
    | ok out =>
      obtain ⟨r, db1⟩ := out
      rw [runWrites_cons_ok hf]
      exact ih db1 (findOneAndUpdate_ok_mem_of_id_ne hf hq hqp) hni'

lemma runWrites_sets_last {bid pid : String} {n : Int} (ws1 : List (String × Int)) :
    ∀ (ws2 : List (String × Int)) (db : List Page), idsNodup db →
      pid ∉ ws1.map Prod.fst → pid ∉ ws2.map Prod.fst →
      (∃ p ∈ db, p.id = pid ∧ p.bookId = bid) →
      (runWrites db bid (ws1 ++ (pid, n) :: ws2)).2.2 = true →
      ∃ p ∈ (runWrites db bid (ws1 ++ (pid, n) :: ws2)).1,
        p.id = pid ∧ p.bookId = bid ∧ p.pageNumber = n := by
  induction ws1 with
  | nil =>
    intro ws2 db hids _ hni2 hex hok
    simp only [List.nil_append] at hok ⊢
    obtain ⟨r, db1, hf, hok2, heq⟩ := runWrites_ok_cons_inv hok
    obtain ⟨p0, hp0, hid0, hbk0⟩ := hex
    obtain ⟨q0, hfind, hq0mem, hq0m⟩ :=
      exists_find?_eq_some hp0 (pageMatches_iff.mpr ⟨hid0, hbk0⟩)
    unfold findOneAndUpdatePN at hf
    rw [hfind] at hf
    cases hc : dupKeyConflict db pid bid n with
    | true => rw [hc] at hf; simp at hf
    | false =>
      rw [hc] at hf
      simp only [Bool.false_eq_true, if_false, Except.ok.injEq, Prod.mk.injEq] at hf
      have hup : { q0 with pageNumber := n } ∈ updateFirst db pid bid n :=
        updated_mem_updateFirst hfind
      obtain ⟨hq0i, hq0b⟩ := pageMatches_iff.mp hq0m
      have hmem : { q0 with pageNumber := n } ∈ (runWrites db1 bid ws2).1 := by
        apply runWrites_preserves_other ws2 db1 ?_ ?_
        · rw [← hf.2]; exact hup
        · show q0.id ∉ ws2.map Prod.fst
          rw [hq0i]
          exact hni2
      refine ⟨{ q0 with pageNumber := n }, ?_, hq0i, hq0b, rfl⟩
      rw [heq]
      exact hmem
  | cons w ws1' ih =>
    intro ws2 db hids hni1 hni2 hex hok
    obtain ⟨pid1, n1⟩ := w
    simp only [List.cons_append] at hok ⊢
    obtain ⟨r, db1, hf, hok', heq⟩ := runWrites_ok_cons_inv hok
    rw [heq]
    have hfr := findOneAndUpdate_ok_frame hf
    exact ih ws2 db1 (idsNodup_of_forall2 hfr hids)
      (fun h => hni1 (by simp [h])) hni2 (forall2_frame_exists hfr hex) hok'

-- Shape of the validated entry list.

lemma validPageOrders_of_wf {po : List OrderItem}
    (hwf : ∀ item ∈ po, isValidObjectId (optIdToString item.pageId) = true) :
    validPageOrders po =
      po.map fun item => (optIdToString item.pageId, item.newPageNumber) := by
  induction po with
  | nil => rfl
  | cons item rest ih =>
    have h1 := hwf item (List.mem_cons_self _ _)
    have h2 := ih fun it hit => hwf it (List.mem_cons_of_mem _ hit)
    simp only [validPageOrders, List.filterMap_cons, h1, if_true, List.map_cons]
    rw [← h2]
    rfl

lemma validPageOrders_filter (po : List OrderItem) :
    validPageOrders (po.filter fun item => isValidObjectId (optIdToString item.pageId)) =
      validPageOrders po := by
  induction po with
  | nil => rfl
  | cons item rest ih =>
    cases hv : isValidObjectId (optIdToString item.pageId) with
    | true =>
      simp only [validPageOrders] at ih ⊢
      simp only [List.filter_cons, hv, if_true, List.filterMap_cons, ih]
    | false =>
      simp only [validPageOrders] at ih ⊢
      simp only [List.filter_cons, hv, Bool.false_eq_true, if_false, List.filterMap_cons, ih]

-- Inverting a successful reorder.

lemma reorderPhases_ok_inv {db st resp : List Page} {bid : String}
    {vpo : List (String × Int)}
    (h : reorderPhases db bid vpo = (.ok resp, st)) :
    (runWrites db bid (phase1Writes vpo)).2.2 = true ∧
      (runWrites (runWrites db bid (phase1Writes vpo)).1 bid vpo).2.2 = true ∧
      st = (runWrites (runWrites db bid (phase1Writes vpo)).1 bid vpo).1 ∧
      resp = findPages st bid := by
  unfold reorderPhases at h
  cases h1 : (runWrites db bid (phase1Writes vpo)).2.2 with
  | false => rw [h1] at h; simp at h
  | true =>
    rw [h1] at h
    cases h2 : (runWrites (runWrites db bid (phase1Writes vpo)).1 bid vpo).2.2 with
    | false => rw [h2] at h; simp at h
    | true =>
      rw [h2] at h
      simp only [if_true, Prod.mk.injEq, ReorderResponse.ok.injEq] at h
      exact ⟨rfl, rfl, h.2.symm, by rw [← h.1, h.2]⟩

/-- C2: within one parent no two pages hold the same positive position at any
of the at-rest states of a reorder — before it, after Phase 1, after Phase 2
and at the operation's final state (wherever it stops) — given a store whose
records have distinct identifiers and respect the unique index; and the
transient Phase-1 placeholders are pairwise distinct negative values, so they
collide neither with each other nor with any positive position. -/
theorem reorder_at_rest_position_uniqueness
    (db : List Page) (req : ReorderRequest)
    (h1 : idsNodup db) (h2 : keyNodup db) :
    uniquePositive db ∧
    uniquePositive (runWrites db (requestBid req)
      (phase1Writes (validPageOrders (req.pageOrder.getD [])))).1 ∧
    uniquePositive (runWrites
      (runWrites db (requestBid req)
        (phase1Writes (validPageOrders (req.pageOrder.getD [])))).1
      (requestBid req) (validPageOrders (req.pageOrder.getD []))).1 ∧
    uniquePositive (reorder db req).2 ∧
    (∀ w ∈ phase1Writes (validPageOrders (req.pageOrder.getD [])), w.2 < 0) ∧
    (phase1Writes (validPageOrders (req.pageOrder.getD []))).Pairwise
      (fun a b => a.2 ≠ b.2) := by
  have hks1 : keyNodup (runWrites db (requestBid req)
      (phase1Writes (validPageOrders (req.pageOrder.getD [])))).1 :=
    runWrites_keyNodup _ _ db h1 h2
  have his1 : idsNodup (runWrites db (requestBid req)
      (phase1Writes (validPageOrders (req.pageOrder.getD [])))).1 :=
    idsNodup_of_forall2 (runWrites_frame db _ _) h1
  have hks2 : keyNodup (runWrites
      (runWrites db (requestBid req)
        (phase1Writes (validPageOrders (req.pageOrder.getD [])))).1
      (requestBid req) (validPageOrders (req.pageOrder.getD []))).1 :=
    runWrites_keyNodup _ _ _ his1 hks1
  refine ⟨keyNodup_uniquePositive h2, keyNodup_uniquePositive hks1,
    keyNodup_uniquePositive hks2, ?_, ?_, phase1WritesFrom_pairwise 0 _⟩
  · obtain ⟨bko, poo⟩ := req
    cases bko with
    | none => cases poo <;> exact keyNodup_uniquePositive h2
    | some bv =>
      cases poo with
      | none => exact keyNodup_uniquePositive h2
      | some po =>
        cases hv : isValidObjectId (idToString bv) with
        | false =>
          simp only [reorder, hv, Bool.false_eq_true, if_false]
          exact keyNodup_uniquePositive h2
        | true =>
          simp only [reorder, hv, if_true]
          unfold reorderPhases
          cases hA : (runWrites db (idToString bv)
              (phase1Writes (validPageOrders po))).2.2 with
          | false =>
            simp only [hA, Bool.false_eq_true, if_false]
            exact keyNodup_uniquePositive hks1
          | true =>
            simp only [hA, if_true]
            cases hB : (runWrites (runWrites db (idToString bv)
                (phase1Writes (validPageOrders po))).1 (idToString bv)
                (validPageOrders po)).2.2 with
            | false =>
              simp only [hB, Bool.false_eq_true, if_false]
              exact keyNodup_uniquePositive hks2
            | true =>
              simp only [hB, if_true]
              exact keyNodup_uniquePositive hks2
  · intro w hw
    have h := phase1WritesFrom_snd_le w hw
    push_cast at h
    omega

/-- C1: for a valid reorder request whose entries name pairwise distinct
existing pages of the parent with pairwise distinct target positions, once the
operation completes with a success response every listed page's stored
position equals its requested new position, and the response is exactly the
parent's full page set sorted ascending by position. -/
theorem reorder_applies_requested_positions
    (db resp st : List Page) (bv : IdValue) (po : List OrderItem)
    (hids : idsNodup db)
    (hwf : ∀ item ∈ po, isValidObjectId (optIdToString item.pageId) = true)
    (hex : ∀ item ∈ po, ∃ p ∈ db, p.id = optIdToString item.pageId ∧
      p.bookId = idToString bv)
    (hdp : (po.map fun item => optIdToString item.pageId).Nodup)
    (_hdt : (po.map fun item => item.newPageNumber).Nodup)
    (hok : reorder db { bookId := some bv, pageOrder := some po } = (.ok resp, st)) :
    (∀ item ∈ po, ∃ p ∈ st, p.id = optIdToString item.pageId ∧
      p.bookId = idToString bv ∧ p.pageNumber = item.newPageNumber) ∧
    resp = findPages st (idToString bv) ∧
    List.Sorted pageLE resp ∧
    List.Perm resp (st.filter fun p => p.bookId == idToString bv) := by
  cases hv : isValidObjectId (idToString bv) with
  | false => simp [reorder, hv] at hok
  | true =>
    have hph : reorderPhases db (idToString bv) (validPageOrders po) = (.ok resp, st) := by
      simpa only [reorder, hv, if_true] using hok
    obtain ⟨hf1, hf2, hst, hresp⟩ := reorderPhases_ok_inv hph
    have hvpo := validPageOrders_of_wf hwf
    refine ⟨?_, hresp, ?_, ?_⟩
    · intro item hitem
      have hmem : (optIdToString item.pageId, item.newPageNumber) ∈ validPageOrders po := by
        rw [hvpo]
        exact List.mem_map.mpr ⟨item, hitem, rfl⟩
      obtain ⟨ws1, ws2, hsplit⟩ := List.append_of_mem hmem
      have hfst : (validPageOrders po).map Prod.fst =
          po.map fun it => optIdToString it.pageId := by
        rw [hvpo, List.map_map]
        rfl
      have hnd : ((validPageOrders po).map Prod.fst).Nodup := by
        rw [hfst]
        exact hdp
      rw [hsplit, List.map_append, List.map_cons, List.nodup_append] at hnd
      have hni2 : optIdToString item.pageId ∉ ws2.map Prod.fst :=
        (List.nodup_cons.mp hnd.2.1).1
      have hni1 : optIdToString item.pageId ∉ ws1.map Prod.fst := by
        intro hmem1
        exact hnd.2.2 hmem1 (List.mem_cons_self _ _)
      have hfr := runWrites_frame db (idToString bv) (phase1Writes (validPageOrders po))
      have hexS1 := forall2_frame_exists hfr (hex item hitem)
      have hidsS1 := idsNodup_of_forall2 hfr hids
      have hres := runWrites_sets_last ws1 ws2 _ hidsS1 hni1 hni2 hexS1
        (by rw [← hsplit]; exact hf2)
      rw [← hsplit] at hres
      rw [hst]
      exact hres
    · rw [hresp]
      exact List.sorted_insertionSort pageLE _
    · rw [hresp]
      exact List.perm_insertionSort pageLE _

/-- C7: a reorder request with a missing book identifier, a missing or
non-array page order, or a book identifier that is not 24-character hex, is
answered with a 400 validation error and performs no write at all. -/
theorem reorder_rejects_malformed_request
    (db : List Page) (req : ReorderRequest)
    (h : req.bookId = none ∨ req.pageOrder = none ∨
      ∀ bv, req.bookId = some bv → isValidObjectId (idToString bv) = false) :
    (∃ msg, (reorder db req).1 = ReorderResponse.badRequest msg) ∧
      (reorder db req).2 = db := by
  obtain ⟨bko, poo⟩ := req
  cases bko with
  | none => cases poo <;> exact ⟨⟨_, rfl⟩, rfl⟩
  | some bv =>
    cases poo with
    | none => exact ⟨⟨_, rfl⟩, rfl⟩
    | some po =>
      rcases h with h | h | h
      · simp at h
      · simp at h
      · have hv := h bv rfl
        constructor
        · refine ⟨"Invalid bookId format", ?_⟩
          simp [reorder, hv]
        · simp [reorder, hv]

/-- C8: listing pages for a malformed parent identifier returns an empty list
with a success status, not an error; for a well-formed identifier it returns
that parent's pages sorted ascending by position. -/
theorem list_pages_by_book_contract (db : List Page) (bid : String) :
    (isValidObjectId bid = false → getPagesForBook db bid = ListPagesResponse.ok []) ∧
    (isValidObjectId bid = true →
      ∃ ps, getPagesForBook db bid = ListPagesResponse.ok ps ∧
        List.Sorted pageLE ps ∧ List.Perm ps (db.filter fun p => p.bookId == bid)) := by
  constructor
  · intro h
    simp [getPagesForBook, h]
  · intro h
    refine ⟨findPages db bid, by simp [getPagesForBook, h], ?_, ?_⟩
    · exact List.sorted_insertionSort pageLE _
    · exact List.perm_insertionSort pageLE _

/-- C9: a reorder run only ever touches the `pageNumber` field of pages of the
requested book: every record keeps its identifier, owner and content, and any
record whose `bookId` differs from the request's — whether or not its
identifier is listed — is left entirely unchanged. -/
theorem reorder_touches_only_positions (db : List Page) (req : ReorderRequest) :
    List.Forall₂ (frameRel (requestBid req)) db (reorder db req).2 := by
  obtain ⟨bko, poo⟩ := req
  cases bko with
  | none => cases poo <;> exact forall2_frame_refl _ db
  | some bv =>
    cases poo with
    | none => exact forall2_frame_refl _ db
    | some po =>
      cases hv : isValidObjectId (idToString bv) with
      | false =>
        simp only [reorder, hv, Bool.false_eq_true, if_false]
        exact forall2_frame_refl _ db
      | true =>
        simp only [reorder, hv, if_true]
        show List.Forall₂ (frameRel (idToString bv)) db _
        unfold reorderPhases
        cases hA : (runWrites db (idToString bv)
            (phase1Writes (validPageOrders po))).2.2 with
        | false =>
          simp only [hA, Bool.false_eq_true, if_false]
          exact runWrites_frame db _ _
        | true =>
          simp only [hA, if_true]
          cases hB : (runWrites (runWrites db (idToString bv)
              (phase1Writes (validPageOrders po))).1 (idToString bv)
              (validPageOrders po)).2.2 with
          | false =>
            simp only [hB, Bool.false_eq_true, if_false]
            exact forall2_frame_trans (runWrites_frame db _ _) (runWrites_frame _ _ _)
          | true =>
            simp only [hB, if_true]
            exact forall2_frame_trans (runWrites_frame db _ _) (runWrites_frame _ _ _)

/-- C10: the reorder route never validates the requested new positions: a
request carrying a negative `newPageNumber` for an existing page of the parent
is committed as-is by Phase 2, so a negative position persists at rest after a
successful reorder. -/
theorem reorder_commits_negative_position :
    reorder [demoPageA]
      { bookId := some (.str demoIdP),
        pageOrder := some [{ pageId := some (.str demoIdA), newPageNumber := -5 }] } =
    (ReorderResponse.ok [{ demoPageA with pageNumber := -5 }],
      [{ demoPageA with pageNumber := -5 }]) := by decide

/-- C4: Phase 1 derives each placeholder deterministically from the entry's
index — the i-th valid entry is assigned `-(i+1)` — and the placeholders are
pairwise distinct negative integers, so no placeholder equals any other
placeholder or any positive at-rest position. -/
theorem phase1_placeholders_indexed_distinct_negative (po : List OrderItem) :
    (∀ (i : Nat) (h : i < (validPageOrders po).length)
        (h2 : i < (phase1Writes (validPageOrders po)).length),
      (phase1Writes (validPageOrders po)).get ⟨i, h2⟩ =
        (((validPageOrders po).get ⟨i, h⟩).1, -((i : Int) + 1))) ∧
    ((phase1Writes (validPageOrders po)).Pairwise fun a b => a.2 ≠ b.2) ∧
    (∀ w ∈ phase1Writes (validPageOrders po), w.2 < 0) := by
  refine ⟨?_, phase1WritesFrom_pairwise 0 _, ?_⟩
  · intro i h h2
    have hg := phase1WritesFrom_get (validPageOrders po) 0 i h h2
    simp only [phase1Writes]
    rw [hg]
    norm_num
  · intro w hw
    have h := phase1WritesFrom_snd_le w hw
    push_cast at h
    omega

/-- C5: a malformed page identifier in a reorder batch is skipped without
aborting it — the operation behaves exactly as on the request with the
malformed entries filtered out — and an entry whose well-formed identifier
resolves to no page of the parent produces a null result with no state change
and no count, leaving every remaining write to run from the same state. -/
theorem reorder_skips_invalid_and_missing_entries :
    (∀ (db : List Page) (bko : Option IdValue) (po : List OrderItem),
      reorder db { bookId := bko, pageOrder := some po } =
        reorder db
          { bookId := bko,
            pageOrder :=
              some (po.filter fun item => isValidObjectId (optIdToString item.pageId)) }) ∧
    (∀ (db : List Page) (bid pid : String) (n : Int),
      (∀ p ∈ db, ¬(p.id = pid ∧ p.bookId = bid)) →
      findOneAndUpdatePN db bid pid n = .ok (none, db)) ∧
    (∀ (db : List Page) (bid pid : String) (n : Int) (ws : List (String × Int)),
      (∀ p ∈ db, ¬(p.id = pid ∧ p.bookId = bid)) →
      runWrites db bid ((pid, n) :: ws) = runWrites db bid ws) := by
  have key : ∀ (db : List Page) (bid pid : String) (n : Int),
      (∀ p ∈ db, ¬(p.id = pid ∧ p.bookId = bid)) →
      findOneAndUpdatePN db bid pid n = .ok (none, db) := by
    intro db bid pid n h
    have hf : db.find? (pageMatches pid bid) = none :=
      List.find?_eq_none.mpr fun p hp hm => h p hp (pageMatches_iff.mp hm)
    unfold findOneAndUpdatePN
    rw [hf]
  refine ⟨?_, key, ?_⟩
  · intro db bko po
    cases bko with
    | none => rfl
    | some bv =>
      cases hv : isValidObjectId (idToString bv) with
      | false => simp [reorder, hv]
      | true => simp [reorder, hv, validPageOrders_filter]
  · intro db bid pid n ws h
    rw [runWrites_cons_ok (key db bid pid n h)]
    simp

/-- C6 counterexample: two reorder requests over the same store — one
supplying one entry that is fully applied (1 of 1), the other supplying two
entries of which only one resolves to a page (1 of 2, a partial application)
— produce identical responses, so the response carries no
applied-versus-supplied information and the caller cannot detect the partial
application from it. -/
theorem reorder_response_lacks_counts_counterexample :
    reorder demoDb
        { bookId := some (.str demoIdP),
          pageOrder := some [{ pageId := some (.str demoIdA), newPageNumber := 1 }] } =
      reorder demoDb
        { bookId := some (.str demoIdP),
          pageOrder := some [{ pageId := some (.str demoIdA), newPageNumber := 1 },
                             { pageId := some (.str demoIdC), newPageNumber := 5 }] } ∧
    ([{ pageId := some (.str demoIdA), newPageNumber := 1 }] : List OrderItem).length ≠
      ([{ pageId := some (.str demoIdA), newPageNumber := 1 },
        { pageId := some (.str demoIdC), newPageNumber := 5 }] : List OrderItem).length := by
  exact ⟨by decide, by decide⟩

/-- C6 amended: the reorder route computes how many entries were applied
(`updatedCount`) but only writes it to the server log; the success response is
exactly the parent's re-read page list and contains no applied-versus-supplied
counts. -/
theorem reorder_success_response_is_page_list
    (db resp st : List Page) (req : ReorderRequest)
    (hok : reorder db req = (.ok resp, st)) :
    resp = findPages st (requestBid req) := by
  obtain ⟨bko, poo⟩ := req
  cases bko with
  | none => cases poo <;> simp [reorder] at hok
  | some bv =>
    cases poo with
    | none => simp [reorder] at hok
    | some po =>
      cases hv : isValidObjectId (idToString bv) with
      | false => simp [reorder, hv] at hok
      | true =>
        have hph : reorderPhases db (idToString bv) (validPageOrders po) =
            (.ok resp, st) := by
          simpa only [reorder, hv, if_true] using hok
        exact (reorderPhases_ok_inv hph).2.2.2

-- One successful checked write, fully characterized.

lemma writeStep {db : List Page} {p : Page} {pid bid : String} {n : Int}
    (hids : idsNodup db) (hp : p ∈ db) (hpid : p.id = pid) (hbid : p.bookId = bid)
    (hnoc : ∀ q ∈ db, q.id ≠ pid → q.bookId = bid → q.pageNumber ≠ n) :
    findOneAndUpdatePN db bid pid n = .ok (some p, updateFirst db pid bid n) ∧
      { p with pageNumber := n } ∈ updateFirst db pid bid n ∧
      (∀ q ∈ updateFirst db pid bid n, q.id = pid → q = { p with pageNumber := n }) ∧
      (∀ q ∈ updateFirst db pid bid n, q.id ≠ pid → q ∈ db) ∧
      (∀ q ∈ db, q.id ≠ pid → q ∈ updateFirst db pid bid n) ∧
      idsNodup (updateFirst db pid bid n) := by
  have hm : pageMatches pid bid p = true := pageMatches_iff.mpr ⟨hpid, hbid⟩
  obtain ⟨q0, hfind, hq0mem, hq0m⟩ := exists_find?_eq_some hp hm
  have hids' : (db.map Page.id).Nodup := hids
  have hq0p : q0 = p :=
    List.inj_on_of_nodup_map hids' hq0mem hp ((pageMatches_iff.mp hq0m).1.trans hpid.symm)
  subst hq0p
  have hc : dupKeyConflict db pid bid n = false := no_conflict_iff.mpr hnoc
  have hidsU : idsNodup (updateFirst db pid bid n) :=
    idsNodup_of_forall2 (updateFirst_frame db pid bid n) hids
  have hidsU' : ((updateFirst db pid bid n).map Page.id).Nodup := hidsU
  have hupd : { q0 with pageNumber := n } ∈ updateFirst db pid bid n :=
    updated_mem_updateFirst hfind
  refine ⟨?_, hupd, ?_, ?_, ?_, hidsU⟩
  · unfold findOneAndUpdatePN
    rw [hfind, hc]
    simp
  · intro q hq hqid
    have h1 : ({ q0 with pageNumber := n } : Page).id = pid := hpid
    exact List.inj_on_of_nodup_map hidsU' hq hupd (hqid.trans h1.symm)
  · intro q hq hne
    exact mem_db_of_mem_updateFirst_of_id_ne hq hne
  · intro q hq hne
    exact mem_updateFirst_of_id_ne hq hne

/-- C3: within one reorder request every Phase-1 write is issued and awaited
before any Phase-2 write begins — the operation's final state factors as the
Phase-2 run applied to the state the completed Phase-1 run produced — and
consequently a request that directly swaps two pages' positions (A:1→2,
B:2→1) succeeds end to end, with no write ever rejected by the
(bookId, pageNumber) unique index. -/
theorem reorder_swap_two_phase_succeeds
    (db : List Page) (A B : Page) (P : String)
    (hids : idsNodup db) (hkeys : keyNodup db)
    (hA : A ∈ db) (hB : B ∈ db) (hAB : A.id ≠ B.id)
    (hAbk : A.bookId = P) (hBbk : B.bookId = P)
    (hA1 : A.pageNumber = 1) (hB2 : B.pageNumber = 2)
    (hpos : ∀ q ∈ db, q.bookId = P → 0 < q.pageNumber)
    (hvA : isValidObjectId A.id = true) (hvB : isValidObjectId B.id = true)
    (hvP : isValidObjectId P = true) :
    ∃ resp st,
      reorder db
        { bookId := some (.str P),
          pageOrder := some [{ pageId := some (.str A.id), newPageNumber := 2 },
                             { pageId := some (.str B.id), newPageNumber := 1 }] } =
        (ReorderResponse.ok resp, st) ∧
      (runWrites db P (phase1Writes
        (validPageOrders [{ pageId := some (.str A.id), newPageNumber := 2 },
                          { pageId := some (.str B.id), newPageNumber := 1 }]))).2.2 = true ∧
      st = (runWrites (runWrites db P (phase1Writes
        (validPageOrders [{ pageId := some (.str A.id), newPageNumber := 2 },
                          { pageId := some (.str B.id), newPageNumber := 1 }]))).1 P
        (validPageOrders [{ pageId := some (.str A.id), newPageNumber := 2 },
                          { pageId := some (.str B.id), newPageNumber := 1 }])).1 ∧
      (∃ a ∈ st, a.id = A.id ∧ a.bookId = P ∧ a.pageNumber = 2) ∧
      (∃ b ∈ st, b.id = B.id ∧ b.bookId = P ∧ b.pageNumber = 1) := by
  have hkeys' : (db.map pageKey).Nodup := hkeys
  have hvpo : validPageOrders [{ pageId := some (.str A.id), newPageNumber := 2 },
      { pageId := some (.str B.id), newPageNumber := 1 }] = [(A.id, 2), (B.id, 1)] := by
    simp [validPageOrders, optIdToString, idToString, hvA, hvB]
  have hph1 : phase1Writes [(A.id, 2), (B.id, 1)] = [(A.id, -1), (B.id, -2)] := by
    norm_num [phase1Writes, phase1WritesFrom]
  -- Phase 1, write 1: quarantine A at -1.
  have hnoc1 : ∀ q ∈ db, q.id ≠ A.id → q.bookId = P → q.pageNumber ≠ (-1 : Int) := by
    intro q hq _ hqb
    have := hpos q hq hqb
    omega
  obtain ⟨hw1, hupd1, huniq1, hsub1, hsup1, hids1⟩ := writeStep hids hA rfl hAbk hnoc1
  -- Phase 1, write 2: quarantine B at -2.
  have hBs1 : B ∈ updateFirst db A.id P (-1) := hsup1 B hB (Ne.symm hAB)
  have hnoc2 : ∀ q ∈ updateFirst db A.id P (-1),
      q.id ≠ B.id → q.bookId = P → q.pageNumber ≠ (-2 : Int) := by
    intro q hq _ hqb
    by_cases hqA : q.id = A.id
    · have hqeq := huniq1 q hq hqA
      rw [hqeq]
      norm_num
    · have hqdb : q ∈ db := hsub1 q hq hqA
      have := hpos q hqdb hqb
      omega
  obtain ⟨hw2, hupd2, huniq2, hsub2, hsup2, hids2⟩ := writeStep hids1 hBs1 rfl hBbk hnoc2
  -- Phase 2, write 1: commit A at 2.
  have hA1s2 : ({ A with pageNumber := -1 } : Page) ∈
      updateFirst (updateFirst db A.id P (-1)) B.id P (-2) :=
    hsup2 { A with pageNumber := -1 } hupd1 hAB
  have hnoc3 : ∀ q ∈ updateFirst (updateFirst db A.id P (-1)) B.id P (-2),
      q.id ≠ A.id → q.bookId = P → q.pageNumber ≠ (2 : Int) := by
    intro q hq hqA hqb
    by_cases hqB : q.id = B.id
    · have hqeq := huniq2 q hq hqB
      rw [hqeq]
      norm_num
    · have hqdb : q ∈ db := hsub1 q (hsub2 q hq hqB) hqA
      intro hq2
      have hkeq : pageKey q = pageKey B := by
        simp [pageKey, hqb, hq2, hBbk, hB2]
      have hqeqB : q = B := List.inj_on_of_nodup_map hkeys' hqdb hB hkeq
      exact hqB (congrArg Page.id hqeqB)
  have hA1id : ({ A with pageNumber := -1 } : Page).id = A.id := rfl
  have hA1bk : ({ A with pageNumber := -1 } : Page).bookId = P := hAbk
  obtain ⟨hw3, hupd3, huniq3, hsub3, hsup3, hids3⟩ :=
    writeStep hids2 hA1s2 hA1id hA1bk hnoc3
  -- Phase 2, write 2: commit B at 1.
  have hB2s3 : ({ B with pageNumber := -2 } : Page) ∈
      updateFirst (updateFirst (updateFirst db A.id P (-1)) B.id P (-2)) A.id P 2 :=
    hsup3 { B with pageNumber := -2 } hupd2 (Ne.symm hAB)
  have hnoc4 : ∀ q ∈ updateFirst (updateFirst (updateFirst db A.id P (-1)) B.id P (-2))
      A.id P 2, q.id ≠ B.id → q.bookId = P → q.pageNumber ≠ (1 : Int) := by
    intro q hq hqB hqb
    by_cases hqA : q.id = A.id
    · have hqeq := huniq3 q hq hqA
      rw [hqeq]
      norm_num
    · have hqdb : q ∈ db := hsub1 q (hsub2 q (hsub3 q hq hqA) hqB) hqA
      intro hq1
      have hkeq : pageKey q = pageKey A := by
        simp [pageKey, hqb, hq1, hAbk, hA1]
      have hqeqA : q = A := List.inj_on_of_nodup_map hkeys' hqdb hA hkeq
      exact hqA (congrArg Page.id hqeqA)
  have hB2id : ({ B with pageNumber := -2 } : Page).id = B.id := rfl
  have hB2bk : ({ B with pageNumber := -2 } : Page).bookId = P := hBbk
  obtain ⟨hw4, hupd4, huniq4, hsub4, hsup4, hids4⟩ :=
    writeStep hids3 hB2s3 hB2id hB2bk hnoc4
  -- Assemble the two runs.
  have hrun1 : runWrites db P [(A.id, -1), (B.id, -2)] =
      (updateFirst (updateFirst db A.id P (-1)) B.id P (-2), 2, true) := by
    rw [runWrites_cons_ok hw1, runWrites_cons_ok hw2]
    rfl
  have hrun2 : runWrites (updateFirst (updateFirst db A.id P (-1)) B.id P (-2)) P
      [(A.id, 2), (B.id, 1)] =
      (updateFirst (updateFirst (updateFirst (updateFirst db A.id P (-1)) B.id P (-2))
        A.id P 2) B.id P 1, 2, true) := by
    rw [runWrites_cons_ok hw3, runWrites_cons_ok hw4]
    rfl
  have hA3s4 : ({ A with pageNumber := 2 } : Page) ∈
      updateFirst (updateFirst (updateFirst (updateFirst db A.id P (-1)) B.id P (-2))
        A.id P 2) B.id P 1 :=
    hsup4 { A with pageNumber := 2 } hupd3 hAB
  refine ⟨findPages (updateFirst (updateFirst (updateFirst (updateFirst db A.id P (-1))
      B.id P (-2)) A.id P 2) B.id P 1) P,
    updateFirst (updateFirst (updateFirst (updateFirst db A.id P (-1)) B.id P (-2))
      A.id P 2) B.id P 1, ?_, ?_, ?_, ?_, ?_⟩
  · show (if isValidObjectId (idToString (.str P)) = true then _ else _) = _
    simp only [idToString, hvP, if_true]
    unfold reorderPhases
    rw [hvpo, hph1, hrun1, hrun2]
    rfl
  · rw [hvpo, hph1, hrun1]
  · rw [hvpo, hph1, hrun1, hrun2]
  · exact ⟨{ A with pageNumber := 2 }, hA3s4, rfl, hAbk, rfl⟩
  · exact ⟨{ B with pageNumber := 1 }, hupd4, rfl, hBbk, rfl⟩

-- Witnesses: each claim theorem applied at a concrete store and request.

theorem reorder_applies_requested_positions_witness :
    ∃ p ∈ [{ demoPageA with pageNumber := 2 }, { demoPageB with pageNumber := 1 }],
      p.id = optIdToString (some (IdValue.str demoIdA)) ∧
      p.bookId = idToString (IdValue.str demoIdP) ∧ p.pageNumber = (2 : Int) :=
  (reorder_applies_requested_positions demoDb
    [{ demoPageB with pageNumber := 1 }, { demoPageA with pageNumber := 2 }]
    [{ demoPageA with pageNumber := 2 }, { demoPageB with pageNumber := 1 }]
    (IdValue.str demoIdP)
    [{ pageId := some (IdValue.str demoIdA), newPageNumber := 2 },
     { pageId := some (IdValue.str demoIdB), newPageNumber := 1 }]
    (by unfold idsNodup; decide) (by decide) (by decide) (by decide) (by decide)
    (by decide)).1
    { pageId := some (IdValue.str demoIdA), newPageNumber := 2 } (by decide)

theorem reorder_at_rest_uniqueness_witness :
    uniquePositive (reorder demoDb
      { bookId := some (IdValue.str demoIdP),
        pageOrder := some [{ pageId := some (IdValue.str demoIdA), newPageNumber := 2 },
                           { pageId := some (IdValue.str demoIdB), newPageNumber := 1 }] }).2 :=
  (reorder_at_rest_position_uniqueness demoDb
    { bookId := some (IdValue.str demoIdP),
      pageOrder := some [{ pageId := some (IdValue.str demoIdA), newPageNumber := 2 },
                         { pageId := some (IdValue.str demoIdB), newPageNumber := 1 }] }
    (by unfold idsNodup; decide) (by unfold keyNodup; decide)).2.2.2.1

theorem reorder_swap_witness :
    ∃ resp st,
      reorder demoDb
        { bookId := some (IdValue.str demoIdP),
          pageOrder := some [{ pageId := some (IdValue.str demoPageA.id), newPageNumber := 2 },
                             { pageId := some (IdValue.str demoPageB.id), newPageNumber := 1 }] } =
        (ReorderResponse.ok resp, st) ∧
      (runWrites demoDb demoIdP (phase1Writes
        (validPageOrders [{ pageId := some (IdValue.str demoPageA.id), newPageNumber := 2 },
                          { pageId := some (IdValue.str demoPageB.id), newPageNumber := 1 }]))).2.2
        = true ∧
      st = (runWrites (runWrites demoDb demoIdP (phase1Writes
        (validPageOrders [{ pageId := some (IdValue.str demoPageA.id), newPageNumber := 2 },
                          { pageId := some (IdValue.str demoPageB.id), newPageNumber := 1 }]))).1
        demoIdP
        (validPageOrders [{ pageId := some (IdValue.str demoPageA.id), newPageNumber := 2 },
                          { pageId := some (IdValue.str demoPageB.id), newPageNumber := 1 }])).1 ∧
      (∃ a ∈ st, a.id = demoPageA.id ∧ a.bookId = demoIdP ∧ a.pageNumber = 2) ∧
      (∃ b ∈ st, b.id = demoPageB.id ∧ b.bookId = demoIdP ∧ b.pageNumber = 1) :=
  reorder_swap_two_phase_succeeds demoDb demoPageA demoPageB demoIdP
    (by unfold idsNodup; decide) (by unfold keyNodup; decide)
    (by decide) (by decide) (by decide) (by decide) (by decide) (by decide) (by decide)
    (by decide) (by decide) (by decide) (by decide)

theorem phase1_placeholders_witness :
    ((demoIdA, (-1 : Int)) : String × Int).2 < 0 :=
  (phase1_placeholders_indexed_distinct_negative
    [{ pageId := some (IdValue.str demoIdA), newPageNumber := 7 }]).2.2
    (demoIdA, -1) (by decide)

theorem reorder_skips_entries_witness :
    runWrites demoDb demoIdP [(demoIdC, 3), (demoIdA, 7)] =
      runWrites demoDb demoIdP [(demoIdA, 7)] :=
  reorder_skips_invalid_and_missing_entries.2.2 demoDb demoIdP demoIdC 3 [(demoIdA, 7)]
    (by decide)

theorem reorder_success_response_witness :
    [{ demoPageB with pageNumber := 1 }, { demoPageA with pageNumber := 2 }] =
      findPages [{ demoPageA with pageNumber := 2 }, { demoPageB with pageNumber := 1 }]
        (requestBid
          { bookId := some (IdValue.str demoIdP),
            pageOrder := some [{ pageId := some (IdValue.str demoIdA), newPageNumber := 2 },
                               { pageId := some (IdValue.str demoIdB), newPageNumber := 1 }] }) :=
  reorder_success_response_is_page_list demoDb
    [{ demoPageB with pageNumber := 1 }, { demoPageA with pageNumber := 2 }]
    [{ demoPageA with pageNumber := 2 }, { demoPageB with pageNumber := 1 }]
    { bookId := some (IdValue.str demoIdP),
      pageOrder := some [{ pageId := some (IdValue.str demoIdA), newPageNumber := 2 },
                         { pageId := some (IdValue.str demoIdB), newPageNumber := 1 }] }
    (by decide)

theorem reorder_rejects_malformed_witness :
    (∃ msg, (reorder demoDb { bookId := none, pageOrder := none }).1 =
      ReorderResponse.badRequest msg) ∧
    (reorder demoDb { bookId := none, pageOrder := none }).2 = demoDb :=
  reorder_rejects_malformed_request demoDb { bookId := none, pageOrder := none } (Or.inl rfl)

theorem list_pages_malformed_witness :
    getPagesForBook demoDb "not-an-object-id" = ListPagesResponse.ok [] :=
  (list_pages_by_book_contract demoDb "not-an-object-id").1 (by decide)

theorem reorder_frame_witness :
    List.Forall₂
      (frameRel (requestBid
        { bookId := some (IdValue.str demoIdP),
          pageOrder := some [{ pageId := some (IdValue.str demoIdA), newPageNumber := 5 }] }))
      demoDb
      (reorder demoDb
        { bookId := some (IdValue.str demoIdP),
          pageOrder := some [{ pageId := some (IdValue.str demoIdA), newPageNumber := 5 }] }).2 :=
  reorder_touches_only_positions demoDb
    { bookId := some (IdValue.str demoIdP),
      pageOrder := some [{ pageId := some (IdValue.str demoIdA), newPageNumber := 5 }] }
